import Mathlib

/-!
Verification of the en_analysis prosodic-fluency scoring code.

Numbers that the Python code handles as floats are modelled as rationals
(`ℚ`); every float appearing in the claims is an exact decimal, so the
rational model is faithful on all inputs considered.  Fallible operations
(CSV fields that fail to parse, Python exceptions, `statistics.quantiles`
raising on too little data, out-of-range indexing) are modelled with
`Option`.
-/

namespace EnAnalysis

/-- Arithmetic mean, as computed by `statistics.mean` on a nonempty list
(the empty case is unreachable at every call site, guarded by the code). -/
def mean (xs : List ℚ) : ℚ := xs.sum / xs.length

/-- The significant-pause filter of `FluencyEvaluator.calculate_pause_score`
(src/fluency_evaluator.py, lines 69-76): keep every parseable duration
`>= 0.5`; a row whose `duration` field fails to parse (modelled `none`) is
skipped.  There is no upper bound in the code. -/
def significantPauses (rows : List (Option ℚ)) : List ℚ :=
  rows.filterMap (fun r =>
    r.bind (fun d => if (1/2 : ℚ) ≤ d then some d else none))

/-- `FluencyEvaluator.calculate_pause_score` (src/fluency_evaluator.py,
lines 51-96).  Input: the speaker's pause rows, each carrying an optional
parsed duration.  Empty row list returns 0; no significant pause returns 20;
otherwise a base score from the mean significant-pause duration minus two
points per pause `>= 1.5`, floored at 0. -/
def calculate_pause_score (rows : List (Option ℚ)) : ℚ :=
  if rows = [] then 0
  else
    let sig := significantPauses rows
    if sig = [] then 20
    else
      let avg := mean sig
      let base : ℚ := if avg ≤ 7/10 then 20 else if avg ≤ 3/2 then 10 else 5
      let penalty : ℚ := 2 * ((sig.filter (fun p => decide ((3/2 : ℚ) ≤ p))).length : ℚ)
      max 0 (base - penalty)

/-- `FluencyEvaluator.convert_pronunciation_score_to_bracket`
(src/fluency_evaluator.py, lines 366-387): maps the rescaled score to a
bracket value and a qualitative label. -/
def convert_pronunciation_score_to_bracket (raw : ℚ) : ℚ × String :=
  if 25 ≤ raw then (30, "최우수")
  else if 20 ≤ raw then (26, "우수")
  else if 15 ≤ raw then (21, "보통")
  else if 10 ≤ raw then (15, "미흡")
  else if 5 ≤ raw then (10, "부족")
  else (0, "미달")

/-- The raw pronunciation score of `FluencyEvaluator.evaluate_speaker`
(src/fluency_evaluator.py, line 402): the exact sum of the five sub-scores. -/
def pronunciation_raw_score (pause speed f0 dur stress : ℚ) : ℚ :=
  pause + speed + f0 + dur + stress

/-- The rescaled score of `FluencyEvaluator.evaluate_speaker`
(src/fluency_evaluator.py, line 405): raw score times 0.3. -/
def pronunciation_30_score (pause speed f0 dur stress : ℚ) : ℚ :=
  pronunciation_raw_score pause speed f0 dur stress * (3/10)

/-- The final per-speaker score of `FluencyEvaluator.evaluate_speaker`
(src/fluency_evaluator.py, lines 408-411): the bracket of the rescaled
score. -/
def final_score (pause speed f0 dur stress : ℚ) : ℚ :=
  (convert_pronunciation_score_to_bracket
    (pronunciation_30_score pause speed f0 dur stress)).1

/-- Python list indexing `xs[i]` with negative-index semantics: a negative
`i` addresses from the end; an index out of range raises (`none`). -/
def pyIndex (xs : List ℚ) (i : ℤ) : Option ℚ :=
  if 0 ≤ i then xs.get? i.toNat
  else if 0 ≤ (xs.length : ℤ) + i then xs.get? ((xs.length : ℤ) + i).toNat
  else none

/-- The unstressed-duration list of `FluencyEvaluator.calculate_duration_score`
(src/fluency_evaluator.py, lines 268-271): every syllable duration whose
1-based position differs from `expectedStressPosition`. -/
def unstressedDurs (durs : List ℚ) (pos : ℤ) : List ℚ :=
  (durs.enum.filter (fun p => decide (((p.1 : ℤ) + 1) ≠ pos))).map Prod.snd

/-- One loop iteration of `FluencyEvaluator.calculate_duration_score`
(src/fluency_evaluator.py, lines 254-283).  `none` models a row skipped by
`continue` (unparsable field, fewer than two syllables, or an indexing
error); `some b` models a row counted in `total_words` with `b` recording
whether it was counted in `correct_duration_words`. -/
def processDurRow (posField : Option ℤ) (dursField : Option (List ℚ)) : Option Bool :=
  match posField, dursField with
  | some pos, some durs =>
    if durs.length < 2 then none
    else
      match pyIndex durs (pos - 1) with
      | none => none
      | some stressedDur =>
        let u := unstressedDurs durs pos
        if u = [] then some false
        else
          let avg := mean u
          if 0 < avg then some (decide ((6/5 : ℚ) ≤ stressedDur / avg))
          else some false
  | _, _ => none

/-- `FluencyEvaluator.calculate_duration_score` (src/fluency_evaluator.py,
lines 234-298) over the speaker's stress rows, each modelled by its parsed
`expectedStressPosition` and `sylldur` fields. -/
def calculate_duration_score (rows : List (Option ℤ × Option (List ℚ))) : ℚ :=
  if rows = [] then 0
  else
    let results := rows.filterMap (fun r => processDurRow r.1 r.2)
    if results.length = 0 then 0
    else
      let pct : ℚ := ((results.filter id).length : ℚ) / (results.length : ℚ) * 100
      if 80 ≤ pct then 15 else if 60 ≤ pct then 10 else if 40 ≤ pct then 5 else 0

/-- `getStressPosition` (src/scripts/stressAnalysis_mfa_monosyllabic.py,
lines 80-89): 1-based position of the first stressed syllable marker `O`,
or 0 when the shape contains none. -/
def getStressPosition (shape : List Char) : ℕ :=
  match shape.findIdx? (fun c => c == 'O') with
  | some i => i + 1
  | none => 0

/-- Insertion of one element into an ascending list; `sortQ` below chains
these to model Python's `sorted(data)`. -/
def insSorted (x : ℚ) : List ℚ → List ℚ
  | [] => [x]
  | y :: ys => if x ≤ y then x :: y :: ys else y :: insSorted x ys

/-- Ascending sort, modelling Python's `sorted(data)` inside
`statistics.quantiles` (values are rationals, so stability is
unobservable). -/
def sortQ (xs : List ℚ) : List ℚ := xs.foldr insSorted []

/-- Python's `min(values)` on a nonempty list (`0` for the unreachable
empty case). -/
def listMin : List ℚ → ℚ
  | [] => 0
  | x :: xs => xs.foldl min x

/-- Python's `max(values)` on a nonempty list (`0` for the unreachable
empty case). -/
def listMax : List ℚ → ℚ
  | [] => 0
  | x :: xs => xs.foldl max x

/-- The loop body of `statistics.quantiles(data, n=...)` with the default
`exclusive` method, for the already sorted data `s` and the zero-based
loop counter `i0` (Python iterates `i = 1 .. n-1`, so `i = i0 + 1`):
interpolate at the clamped index `j = i*(ld+1)//n` with the exact integer
`delta = i*(ld+1) - j*n`. -/
def quantPoint (n : ℕ) (s : List ℚ) (i0 : ℕ) : ℚ :=
  let i := i0 + 1
  let m := s.length + 1
  let j0 := i * m / n
  let j := if j0 < 1 then 1 else if s.length - 1 < j0 then s.length - 1 else j0
  let delta : ℤ := (i : ℤ) * (m : ℤ) - (j : ℤ) * (n : ℤ)
  (s.getD (j - 1) 0 * ((n : ℚ) - (delta : ℚ)) + s.getD j 0 * (delta : ℚ)) / (n : ℚ)

/-- `statistics.quantiles(data, n=...)` with the default `exclusive` method
(the stress-analysis script calls it with `n=100`): sort, require at least
two data points (a `StatisticsError` is modelled as `none`), then take the
`n-1` interpolated cut points. -/
def quantilesEx (n : ℕ) (data : List ℚ) : Option (List ℚ) :=
  let s := sortQ data
  if s.length < 2 then none
  else some ((List.range (n - 1)).map (quantPoint n s))

/-- The per-speaker, per-dimension percentile scale of the stress-analysis
script (src/scripts/stressAnalysis_mfa_monosyllabic.py, lines 392-397):
`[min(vals)] + statistics.quantiles(vals, n=100) + [max(vals)]`. -/
def buildScale (values : List ℚ) : Option (List ℚ) :=
  match quantilesEx 100 values with
  | none => none
  | some qs => some (listMin values :: qs ++ [listMax values])

/-- The loop body of `getDecileNb`
(src/scripts/stressAnalysis_mfa_monosyllabic.py, lines 405-412), walking
the boundary list with its enumeration index `d`; falling off the end
models Python's implicit `None` return. -/
def getDecileNbAux (val : ℚ) : ℕ → List ℚ → Option ℤ
  | _, [] => none
  | d, b :: rest =>
    if val < b then some ((d : ℤ) - 1)
    else if d = 100 ∧ val = b then some 99
    else getDecileNbAux val (d + 1) rest

/-- `getDecileNb` (src/scripts/stressAnalysis_mfa_monosyllabic.py,
lines 405-412). -/
def getDecileNb (val : ℚ) (listDecs : List ℚ) : Option ℤ :=
  getDecileNbAux val 0 listDecs

/-- Python's `"/".join(gabs)` used for ambiguous expected shapes
(src/scripts/stressAnalysis_mfa_monosyllabic.py, lines 214 and 221). -/
def joinSlash : List String → String
  | [] => ""
  | [g] => g
  | g :: gs => g ++ "/" ++ joinSlash gs

/-- The `plainCategories` list of the stress-analysis script
(src/scripts/stressAnalysis_mfa_monosyllabic.py, line 78). -/
def plainCategories : List String := ["NOUN", "VERB", "ADV", "ADJ"]

/-- The expected-shape selection of the stress-analysis script
(src/scripts/stressAnalysis_mfa_monosyllabic.py, lines 206-221): with more
than one candidate, the exact mirror pair `Oo`/`oO` is disambiguated by
POS (`NOUN`/`ADJ` pick `Oo`, `VERB` picks `oO`, anything else keeps the
joined ambiguous label); any other multi-candidate set keeps the last
candidate whose length equals the observed syllable count (starting from
the empty string); a single candidate is kept as is. -/
def selectMyGab (gabs : List String) (pos : String) (nbSyll : ℕ) : String :=
  if 1 < gabs.length then
    if gabs = ["Oo", "oO"] ∨ gabs = ["oO", "Oo"] then
      if pos = "NOUN" ∨ pos = "ADJ" then "Oo"
      else if pos = "VERB" then "oO"
      else joinSlash gabs
    else
      gabs.foldl (fun acc g => if g.length = nbSyll then g else acc) ""
  else joinSlash gabs

/-- The expected shape after the monosyllabic edit
(src/scripts/stressAnalysis_mfa_monosyllabic.py, lines 226-230): a
one-character selected shape is forced to `o` when the POS is not a plain
category. -/
def expectedShapeOf (gabs : List String) (pos : String) (nbSyll : ℕ) : String :=
  let e := selectMyGab gabs pos nbSyll
  if e.length = 1 then (if pos ∉ plainCategories then "o" else e) else e

/-- The `expectedIsObserved` field of the stressTable.csv export
(src/scripts/stressAnalysis_mfa_monosyllabic.py, line 608):
`"1" if expectedShape == mergedShape else "0"`, a plain string equality. -/
def expectedIsObservedFlag (expectedShape mergedShape : String) : String :=
  if expectedShape = mergedShape then "1" else "0"

/-- Python's whitespace test used by `str.strip()`. -/
def isPySpace (c : Char) : Bool :=
  c == ' ' || c == '\t' || c == '\n' || c == '\r' || c == '\x0b' || c == '\x0c'

/-- Python's `line.strip()`. -/
def pyStrip (l : List Char) : List Char :=
  ((l.dropWhile isPySpace).reverse.dropWhile isPySpace).reverse

/-- Python's `line.split('  ')`: fields produced by cutting at each
non-overlapping, leftmost occurrence of two consecutive spaces. -/
def splitTwoSpaces : List Char → List (List Char)
  | ' ' :: ' ' :: rest => [] :: splitTwoSpaces rest
  | c :: rest =>
    match splitTwoSpaces rest with
    | [] => [[c]]
    | f :: fs => (c :: f) :: fs
  | [] => [[]]

/-- Python's `line.startswith(";;;")`. -/
def startsWithSemis (l : List Char) : Bool :=
  match l with
  | ';' :: ';' :: ';' :: _ => true
  | _ => false

/-- Python's `re.sub(r'\(\d\)', '', w)`: remove every non-overlapping,
leftmost occurrence of an open paren, one digit, close paren. -/
def stripParenDigit : List Char → List Char
  | '(' :: d :: ')' :: rest2 =>
    if d.isDigit then stripParenDigit rest2
    else '(' :: stripParenDigit (d :: ')' :: rest2)
  | c :: rest => c :: stripParenDigit rest
  | [] => []
termination_by l => l.length
decreasing_by
  all_goals simp [List.length]
  all_goals omega

/-- The word normalization shared by both dictionary builders:
`re.sub(r'\(\d\)', '', w.lower())`. -/
def normWord (w : List Char) : List Char :=
  stripParenDigit (w.map Char.toLower)

/-- The stress-pattern extraction shared by both dictionary builders:
`re.sub(r'[^012]', '', t)`, keeping only the stress digits. -/
def stressDigits (t : List Char) : List Char :=
  t.filter (fun c => c == '0' || c == '1' || c == '2')

/-- The Python-dict update shared by both builders: ensure the key exists
and append the pattern unless already present.  The dictionary is modelled
as a total function defaulting to `[]` for absent keys. -/
def dictAdd (dict : List Char → List (List Char)) (w gab : List Char) :
    List Char → List (List Char) :=
  fun x => if x = w then (if gab ∈ dict w then dict w else dict w ++ [gab]) else dict x

/-- One line of `makeStressDictionaryCMU`
(src/plspp/scripts/plsppWeb/stressDictionaryMaker.py, lines 29-47):
skip `;;;` comments, strip, split on two spaces, and on a two-field line
record the stress pattern (even when it is empty). -/
def cmuLineStep (dict : List Char → List (List Char)) (line : List Char) :
    List Char → List (List Char) :=
  if startsWithSemis line then dict
  else
    match splitTwoSpaces (pyStrip line) with
    | [w, t] => dictAdd dict (normWord w) (stressDigits t)
    | _ => dict

/-- One line of the inline `gabarits` builder of the stress-analysis
script (src/scripts/stressAnalysis_mfa_monosyllabic.py, lines 47-61): same
as `cmuLineStep` except a line whose stress pattern is empty is skipped
(`if len(gab)>=1`). -/
def inlineLineStep (dict : List Char → List (List Char)) (line : List Char) :
    List Char → List (List Char) :=
  if startsWithSemis line then dict
  else
    match splitTwoSpaces (pyStrip line) with
    | [w, t] =>
      let gab := stressDigits t
      if 1 ≤ gab.length then dictAdd dict (normWord w) gab else dict
    | _ => dict

/-- `makeStressDictionaryCMU` over the whole file, as a fold of its line
step starting from the empty dictionary. -/
def makeStressDictionaryCMU (lines : List (List Char)) : List Char → List (List Char) :=
  lines.foldl cmuLineStep (fun _ => [])

/-- The inline `gabarits` construction over the whole file, as a fold of
its line step starting from the empty dictionary. -/
def gabaritsBuild (lines : List (List Char)) : List Char → List (List Char) :=
  lines.foldl inlineLineStep (fun _ => [])

/-- A concrete speaker-value list used to exercise the percentile scale:
the 100 values 0, 1, ..., 99. -/
def V100 : List ℚ := (List.range 100).map (fun k : ℕ => (k : ℚ))

/-- Closed form of the boundary at index `k` of the scale built from
`V100`: the minimum 0, the maximum 99, and in between the exclusive
centile `(101*k - 100)/100`. -/
def scaleFun (k : ℕ) : ℚ :=
  if k = 0 then 0 else if k = 100 then 99 else (101 * (k : ℚ) - 100) / 100

/-- The 101 boundaries of the scale built from `V100`, in closed form. -/
def scale100 : List ℚ := (List.range 101).map scaleFun

lemma significantPauses_nil : significantPauses [] = [] := rfl

/-- Claim C1, counterexample: for pause rows with durations
[0.3, 0.6, 2.1] the code does not return 20: `calculate_pause_score` has
no upper-bound filter, so the 2.1 s pause is counted (mean 1.35, base 10,
one long-pause penalty), contradicting the claimed exclusion of durations
at or above 2.0 s. -/
theorem pause_score_no_upper_bound_counterexample :
    calculate_pause_score [some (3/10), some (6/10), some (21/10)] ≠ 20 := by
  have h : calculate_pause_score [some (3/10), some (6/10), some (21/10)] = 8 := by
    norm_num [calculate_pause_score, significantPauses, mean, List.filterMap_cons,
      List.filter, List.sum_cons]
    simp
  rw [h]; norm_num

/-- Claim C1 (amended): the significant-pause filter keeps every parseable
duration at or above 0.5 s with no upper bound; for pause rows
[0.3, 0.6, 2.1] the 0.3 s pause is excluded, both 0.6 s and 2.1 s are
counted, the mean is 1.35 giving base score 10, the single pause at or
above 1.5 s costs 2 points, and `calculate_pause_score` returns 8. -/
theorem pause_score_significant_filter :
    significantPauses [some (3/10), some (6/10), some (21/10)] = [6/10, 21/10] ∧
    mean [(6:ℚ)/10, 21/10] = 27/20 ∧
    calculate_pause_score [some (3/10), some (6/10), some (21/10)] = 8 := by
  refine ⟨by norm_num [significantPauses, List.filterMap_cons], by norm_num [mean], ?_⟩
  norm_num [calculate_pause_score, significantPauses, mean, List.filterMap_cons,
    List.filter, List.sum_cons]
  simp

/-- Claim C2: the final grade is the bracket of 0.3 times the exact sum of
the five sub-scores; the bracket maps a rescaled 25.0 to 30, 24.999 to 26,
20.0 to 26 and 19.999 to 21; and sub-scores [20,15,20,10,10] give raw 75,
rescaled 22.5 and final score 26. -/
theorem final_grade_bracket :
    (∀ p s f d st : ℚ, final_score p s f d st =
        (convert_pronunciation_score_to_bracket ((p + s + f + d + st) * (3/10))).1) ∧
    (convert_pronunciation_score_to_bracket 25).1 = 30 ∧
    (convert_pronunciation_score_to_bracket (24999/1000)).1 = 26 ∧
    (convert_pronunciation_score_to_bracket 20).1 = 26 ∧
    (convert_pronunciation_score_to_bracket (19999/1000)).1 = 21 ∧
    pronunciation_raw_score 20 15 20 10 10 = 75 ∧
    pronunciation_30_score 20 15 20 10 10 = 45/2 ∧
    final_score 20 15 20 10 10 = 26 := by
  refine ⟨fun p s f d st => rfl, ?_, ?_, ?_, ?_, ?_, ?_, ?_⟩ <;>
    norm_num [final_score, convert_pronunciation_score_to_bracket,
      pronunciation_30_score, pronunciation_raw_score]

/-- Claim C6, counterexample: speaker A with pauses [1.5, 0.5] and speaker
B with pauses [1.4, 1.4] have the same number of significant pauses, A has
the strictly lower mean (1.0 < 1.4), yet A scores 8 and B scores 10: the
long-pause penalty breaks the claimed monotonicity in the mean. -/
theorem pause_score_not_monotone_counterexample :
    (significantPauses [some (3/2), some (1/2)]).length =
      (significantPauses [some (7/5), some (7/5)]).length ∧
    mean (significantPauses [some (3/2), some (1/2)]) <
      mean (significantPauses [some (7/5), some (7/5)]) ∧
    calculate_pause_score [some (3/2), some (1/2)] <
      calculate_pause_score [some (7/5), some (7/5)] := by
  refine ⟨by norm_num [significantPauses, List.filterMap_cons],
    by norm_num [significantPauses, mean, List.filterMap_cons, List.sum_cons], ?_⟩
  have hA : calculate_pause_score [some (3/2), some (1/2)] = 8 := by
    norm_num [calculate_pause_score, significantPauses, mean, List.filterMap_cons,
      List.filter, List.sum_cons]
    simp
  have hB : calculate_pause_score [some (7/5), some (7/5)] = 10 := by
    norm_num [calculate_pause_score, significantPauses, mean, List.filterMap_cons,
      List.filter, List.sum_cons]
    simp
  rw [hA, hB]; norm_num

/-- Claim C6 (amended): for two speakers with the same number of
significant pauses and additionally the same number of long pauses
(at or above 1.5 s), the speaker with the strictly lower mean
significant-pause duration scores at least as high. -/
theorem pause_score_monotone_in_mean (A B : List (Option ℚ))
    (hA : significantPauses A ≠ []) (hB : significantPauses B ≠ [])
    (hcount : (significantPauses A).length = (significantPauses B).length)
    (hlong : ((significantPauses A).filter (fun p => decide ((3/2 : ℚ) ≤ p))).length =
        ((significantPauses B).filter (fun p => decide ((3/2 : ℚ) ≤ p))).length)
    (hmean : mean (significantPauses A) < mean (significantPauses B)) :
    calculate_pause_score B ≤ calculate_pause_score A := by
  have hAne : A ≠ [] := by
    intro h; exact hA (by rw [h, significantPauses_nil])
  have hBne : B ≠ [] := by
    intro h; exact hB (by rw [h, significantPauses_nil])
  simp only [calculate_pause_score]
  rw [if_neg hAne, if_neg hBne, if_neg hA, if_neg hB]
  have hbase : (if mean (significantPauses B) ≤ 7/10 then (20:ℚ)
      else if mean (significantPauses B) ≤ 3/2 then 10 else 5) ≤
      (if mean (significantPauses A) ≤ 7/10 then (20:ℚ)
      else if mean (significantPauses A) ≤ 3/2 then 10 else 5) := by
    rcases le_or_lt (mean (significantPauses B)) (7/10) with h1 | h1
    · rw [if_pos h1, if_pos (le_of_lt (lt_of_lt_of_le hmean h1))]
    · rw [if_neg (not_le_of_lt h1)]
      rcases le_or_lt (mean (significantPauses B)) (3/2) with h2 | h2
      · rw [if_pos h2]
        rcases le_or_lt (mean (significantPauses A)) (7/10) with h3 | h3
        · rw [if_pos h3]; norm_num
        · rw [if_neg (not_le_of_lt h3), if_pos (le_of_lt (lt_of_lt_of_le hmean h2))]
      · rw [if_neg (not_le_of_lt h2)]
        rcases le_or_lt (mean (significantPauses A)) (7/10) with h3 | h3
        · rw [if_pos h3]; norm_num
        · rw [if_neg (not_le_of_lt h3)]
          rcases le_or_lt (mean (significantPauses A)) (3/2) with h4 | h4
          · rw [if_pos h4]; norm_num
          · rw [if_neg (not_le_of_lt h4)]
  rw [hlong]
  exact max_le_max le_rfl (sub_le_sub_right hbase _)

/-- Claim C6, witness for the amended theorem at speakers [0.5] and
[1.2]. -/
theorem pause_score_monotone_in_mean_witness :
    calculate_pause_score [some (6/5)] ≤ calculate_pause_score [some (1/2)] :=
  pause_score_monotone_in_mean [some (1/2)] [some (6/5)]
    (by norm_num [significantPauses, List.filterMap_cons])
    (by norm_num [significantPauses, List.filterMap_cons])
    (by norm_num [significantPauses, List.filterMap_cons])
    (by norm_num [significantPauses, List.filterMap_cons, List.filter])
    (by norm_num [significantPauses, List.filterMap_cons, mean, List.sum_cons])

/-- Claim C8, counterexample: a speaker with no pause rows at all gets 0,
not the claimed full 20 points (the empty-data branch of
`calculate_pause_score` returns 0 before the no-significant-pause branch
is reached). -/
theorem pause_score_empty_rows_counterexample :
    calculate_pause_score [] = 0 ∧ calculate_pause_score [] ≠ 20 := by
  constructor <;> simp [calculate_pause_score]

/-- Claim C8 (amended): a speaker with at least one pause row none of
whose parseable durations reach 0.5 s scores the full 20 points; a speaker
with no pause rows at all scores 0 instead. -/
theorem pause_score_no_significant_full_marks (rows : List (Option ℚ))
    (hne : rows ≠ []) (hsig : significantPauses rows = []) :
    calculate_pause_score rows = 20 := by
  simp only [calculate_pause_score]
  rw [if_neg hne, if_pos hsig]

/-- Claim C8, witness for the amended theorem at a speaker whose only
pause row has duration 0.3 s. -/
theorem pause_score_no_significant_full_marks_witness :
    calculate_pause_score [some (3/10)] = 20 :=
  pause_score_no_significant_full_marks [some (3/10)] (by simp)
    (by norm_num [significantPauses, List.filterMap_cons])

/-- Claim C4, counterexample: a word whose expected shape is kept as the
ambiguous both-candidate label (POS `PRON` on the mirror pair) is flagged
`0` even though the merged observed shape `Oo` equals one of the two
candidates — the export field is a plain string equality, so the claimed
match rule for ambiguous shapes does not hold. -/
theorem stress_flag_ambiguous_counterexample :
    selectMyGab ["Oo", "oO"] "PRON" 2 = "Oo/oO" ∧
    "Oo" ∈ ["Oo", "oO"] ∧
    expectedIsObservedFlag (selectMyGab ["Oo", "oO"] "PRON" 2) "Oo" = "0" := by
  decide

/-- Claim C4 (amended): the `expectedIsObserved` flag is `1` exactly when
`ExpectedShape` equals the merged `ObservedShape` as strings; since an
ambiguous both-candidate label contains a slash and a merged shape is a
string over the alphabet o/O, an ambiguous expected shape is always
flagged `0`; for a non-ambiguous word the flag is the plain sequence
equality the claim states. -/
theorem stress_flag_is_plain_equality :
    (∀ e m : String, expectedIsObservedFlag e m = "1" ↔ e = m) ∧
    (∀ g₁ g₂ m : String, (∀ c ∈ m.data, c = 'o' ∨ c = 'O') →
        expectedIsObservedFlag (joinSlash [g₁, g₂]) m = "0") := by
  constructor
  · intro e m
    by_cases h : e = m
    · simp [expectedIsObservedFlag, h]
    · simp [expectedIsObservedFlag, h]
  · intro g₁ g₂ m hm
    have hj : joinSlash [g₁, g₂] = g₁ ++ "/" ++ g₂ := by
      simp [joinSlash]
    have hmem : '/' ∈ (g₁ ++ "/" ++ g₂).data := by
      simp [String.data_append]
    have hnot : '/' ∉ m.data := by
      intro hc
      rcases hm '/' hc with h | h <;> simp at h
    have hne : joinSlash [g₁, g₂] ≠ m := by
      intro heq
      rw [hj] at heq
      rw [heq] at hmem
      exact hnot hmem
    simp [expectedIsObservedFlag, hne]

/-- Claim C4, witness for the amended theorem at the merged shape `oO`. -/
theorem stress_flag_is_plain_equality_witness :
    expectedIsObservedFlag (joinSlash ["Oo", "oO"]) "oO" = "0" :=
  stress_flag_is_plain_equality.2 "Oo" "oO" "oO" (by decide)

lemma foldl_pick_none {n : ℕ} :
    ∀ (l : List String) (a : String), (∀ g ∈ l, g.length ≠ n) →
      l.foldl (fun acc g => if g.length = n then g else acc) a = a := by
  intro l
  induction l with
  | nil => intro a _; rfl
  | cons x xs ih =>
    intro a h
    have hx : x.length ≠ n := h x (by simp)
    simp only [List.foldl_cons, if_neg hx]
    exact ih a (fun g hg => h g (by simp [hg]))

lemma foldl_pick_unique {n : ℕ} {g : String} :
    ∀ (l : List String) (a : String), g ∈ l → g.length = n →
      (∀ g' ∈ l, g'.length = n → g' = g) →
      l.foldl (fun acc g => if g.length = n then g else acc) a = g := by
  intro l
  induction l with
  | nil => intro a h; exact absurd h (by simp)
  | cons x xs ih =>
    intro a hg hgn huniq
    simp only [List.foldl_cons]
    by_cases hxs : ∀ g' ∈ xs, g'.length ≠ n
    · have hgx : g = x := by
        rcases List.mem_cons.mp hg with h | h
        · exact h
        · exact absurd hgn (hxs g h)
      rw [foldl_pick_none xs _ hxs, ← hgx, if_pos hgn]
    · push_neg at hxs
      obtain ⟨g', hg'mem, hg'n⟩ := hxs
      have hg'g : g' = g := huniq g' (by simp [hg'mem]) hg'n
      exact ih _ (hg'g ▸ hg'mem) hgn (fun y hy hyn => huniq y (by simp [hy]) hyn)

/-- Claim C5, counterexample: a single-syllable word whose only dictionary
candidate is unstressed (`o`) keeps that unstressed expectation even when
its POS is `NOUN` — the code only forces `o` for non-content POS tags and
never forces `O` for content-word tags, contradicting the claimed
"stressed for noun/verb/adverb/adjective" default. -/
theorem expected_shape_monosyllabic_counterexample :
    expectedShapeOf ["o"] "NOUN" 1 = "o" ∧ expectedShapeOf ["o"] "NOUN" 1 ≠ "O" := by
  decide

/-- Claim C5 (amended): the mirror-pair rule holds as claimed (NOUN/ADJ
pick `Oo`, VERB picks `oO`, any other POS keeps the ambiguous joined
label); when the candidates are not the mirror pair, the unique candidate
matching the observed syllable count is selected; and for a one-character
selected shape, a POS outside the plain categories forces `o`, while a
plain-category POS keeps the dictionary-derived candidate unchanged
(which may itself be unstressed) rather than forcing a stressed
expectation. -/
theorem expected_shape_disambiguation :
    (∀ (pos : String) (n : ℕ), (pos = "NOUN" ∨ pos = "ADJ") →
        selectMyGab ["Oo", "oO"] pos n = "Oo" ∧ selectMyGab ["oO", "Oo"] pos n = "Oo") ∧
    (∀ n : ℕ, selectMyGab ["Oo", "oO"] "VERB" n = "oO" ∧
        selectMyGab ["oO", "Oo"] "VERB" n = "oO") ∧
    (∀ (pos : String) (n : ℕ), pos ≠ "NOUN" → pos ≠ "ADJ" → pos ≠ "VERB" →
        selectMyGab ["Oo", "oO"] pos n = "Oo/oO") ∧
    (∀ (gabs : List String) (pos : String) (n : ℕ) (g : String),
        1 < gabs.length → ¬(gabs = ["Oo", "oO"] ∨ gabs = ["oO", "Oo"]) →
        g ∈ gabs → g.length = n → (∀ g' ∈ gabs, g'.length = n → g' = g) →
        selectMyGab gabs pos n = g) ∧
    (∀ (gabs : List String) (pos : String) (n : ℕ), pos ∉ plainCategories →
        (selectMyGab gabs pos n).length = 1 → expectedShapeOf gabs pos n = "o") ∧
    (∀ (gabs : List String) (pos : String) (n : ℕ), pos ∈ plainCategories →
        expectedShapeOf gabs pos n = selectMyGab gabs pos n) := by
  refine ⟨?_, ?_, ?_, ?_, ?_, ?_⟩
  · intro pos n h
    constructor
    · unfold selectMyGab
      rw [if_pos (by decide : 1 < (["Oo", "oO"] : List String).length),
        if_pos (Or.inl rfl : (["Oo", "oO"] : List String) = ["Oo", "oO"] ∨
          (["Oo", "oO"] : List String) = ["oO", "Oo"]), if_pos h]
    · unfold selectMyGab
      rw [if_pos (by decide : 1 < (["oO", "Oo"] : List String).length),
        if_pos (Or.inr rfl : (["oO", "Oo"] : List String) = ["Oo", "oO"] ∨
          (["oO", "Oo"] : List String) = ["oO", "Oo"]), if_pos h]
  · intro n
    constructor
    · unfold selectMyGab
      rw [if_pos (by decide : 1 < (["Oo", "oO"] : List String).length),
        if_pos (Or.inl rfl : (["Oo", "oO"] : List String) = ["Oo", "oO"] ∨
          (["Oo", "oO"] : List String) = ["oO", "Oo"]),
        if_neg (by decide : ¬("VERB" = "NOUN" ∨ "VERB" = "ADJ")), if_pos rfl]
    · unfold selectMyGab
      rw [if_pos (by decide : 1 < (["oO", "Oo"] : List String).length),
        if_pos (Or.inr rfl : (["oO", "Oo"] : List String) = ["Oo", "oO"] ∨
          (["oO", "Oo"] : List String) = ["oO", "Oo"]),
        if_neg (by decide : ¬("VERB" = "NOUN" ∨ "VERB" = "ADJ")), if_pos rfl]
  · intro pos n h1 h2 h3
    unfold selectMyGab
    rw [if_pos (by decide : 1 < (["Oo", "oO"] : List String).length),
      if_pos (Or.inl rfl : (["Oo", "oO"] : List String) = ["Oo", "oO"] ∨
        (["Oo", "oO"] : List String) = ["oO", "Oo"]),
      if_neg (by simp [h1, h2]), if_neg h3]
    decide
  · intro gabs pos n g hlen hnm hg hgn huniq
    unfold selectMyGab
    rw [if_pos hlen, if_neg hnm]
    exact foldl_pick_unique gabs "" hg hgn huniq
  · intro gabs pos n hpos hlen1
    unfold expectedShapeOf
    rw [if_pos hlen1, if_pos hpos]
  · intro gabs pos n hpos
    unfold expectedShapeOf
    by_cases hl : (selectMyGab gabs pos n).length = 1
    · rw [if_pos hl, if_neg (not_not_intro hpos)]
    · rw [if_neg hl]

/-- Claim C5, witness for the amended theorem: the ADJ mirror pick, the
syllable-count pick on a non-mirror candidate set, and the monosyllabic
forcing for a non-plain POS. -/
theorem expected_shape_disambiguation_witness :
    selectMyGab ["Oo", "oO"] "ADJ" 2 = "Oo" ∧
    selectMyGab ["O", "Oo"] "NOUN" 1 = "O" ∧
    expectedShapeOf ["O", "Oo"] "PRON" 1 = "o" :=
  ⟨(expected_shape_disambiguation.1 "ADJ" 2 (Or.inr rfl)).1,
   expected_shape_disambiguation.2.2.2.1 ["O", "Oo"] "NOUN" 1 "O"
     (by decide) (by decide) (by decide) (by decide) (by decide),
   expected_shape_disambiguation.2.2.2.2.1 ["O", "Oo"] "PRON" 1
     (by decide) (by decide)⟩

/-- Claim C9: a stress row with `expectedStressPosition = 0` and at least
two syllable durations is not skipped by `calculate_duration_score`: the
index `0 - 1 = -1` resolves by Python negative indexing to the last
syllable's duration, that same last syllable is also kept in the
unstressed list (whose mean is therefore the mean of all syllables), and
the row is counted (`some _`) toward the total. -/
theorem duration_row_zero_stress_position (durs : List ℚ) (h : 2 ≤ durs.length) :
    pyIndex durs ((0 : ℤ) - 1) = some (durs.getLastD 0) ∧
    unstressedDurs durs 0 = durs ∧
    processDurRow (some 0) (some durs) =
      some (decide (0 < mean durs) && decide ((6/5 : ℚ) ≤ durs.getLastD 0 / mean durs)) := by
  have hne : durs ≠ [] := by
    intro hnil; rw [hnil] at h; simp at h
  have hidx : pyIndex durs ((0 : ℤ) - 1) = some (durs.getLastD 0) := by
    unfold pyIndex
    rw [if_neg (by norm_num), if_pos (by omega : (0:ℤ) ≤ (durs.length : ℤ) + (0 - 1))]
    have h1 : ((durs.length : ℤ) + (0 - 1)).toNat = durs.length - 1 := by omega
    rw [h1, List.get?_eq_getElem?, ← List.getLast?_eq_getElem?,
      List.getLastD_eq_getLast?]
    obtain ⟨x, hx⟩ := Option.ne_none_iff_exists'.mp
      (mt List.getLast?_eq_none_iff.mp hne)
    rw [hx]; rfl
  have hun : unstressedDurs durs 0 = durs := by
    unfold unstressedDurs
    rw [List.filter_eq_self.mpr ?_]
    · exact List.enumFrom_map_snd 0 durs
    · intro p _
      simp only [decide_eq_true_eq]
      omega
  refine ⟨hidx, hun, ?_⟩
  have hstep : processDurRow (some 0) (some durs) =
      if durs.length < 2 then none
      else
        match pyIndex durs ((0 : ℤ) - 1) with
        | none => none
        | some stressedDur =>
          if unstressedDurs durs 0 = [] then some false
          else if 0 < mean (unstressedDurs durs 0) then
            some (decide ((6/5 : ℚ) ≤ stressedDur / mean (unstressedDurs durs 0)))
          else some false := rfl
  rw [hstep, if_neg (by omega : ¬ durs.length < 2), hidx]
  show (if unstressedDurs durs 0 = [] then some false
      else if 0 < mean (unstressedDurs durs 0) then
        some (decide ((6/5 : ℚ) ≤ durs.getLastD 0 / mean (unstressedDurs durs 0)))
      else some false) =
    some (decide (0 < mean durs) && decide ((6/5 : ℚ) ≤ durs.getLastD 0 / mean durs))
  rw [hun, if_neg hne]
  by_cases havg : 0 < mean durs
  · rw [if_pos havg, decide_eq_true havg, Bool.true_and]
  · rw [if_neg havg, decide_eq_false havg, Bool.false_and]

/-- Claim C9, witness at the two-syllable duration list [1, 2]: the row is
processed, the stressed duration is the last value 2, the unstressed mean
is the mean 1.5 of both syllables, and the ratio 2/1.5 marks the row
correct. -/
theorem duration_row_zero_stress_position_witness :
    processDurRow (some 0) (some [(1 : ℚ), 2]) = some true := by
  have h := (duration_row_zero_stress_position [(1 : ℚ), 2] (by norm_num)).2.2
  rw [h]
  norm_num [mean, List.sum_cons]

lemma dictAdd_mem (dict : List Char → List (List Char)) (w gab : List Char) :
    gab ∈ dictAdd dict w gab w := by
  unfold dictAdd
  rw [if_pos rfl]
  by_cases hmem : gab ∈ dict w
  · rw [if_pos hmem]; exact hmem
  · rw [if_neg hmem]; exact List.mem_append_right _ (by simp)

/-- Claim C10: on any non-comment line that splits into exactly two fields
on a double space, the CMU builder and the inline `gabarits` builder agree
whenever the phonetic field contains at least one stress digit (both record
the same deduplicated pattern under the same normalized word), while a
two-field line with no stress digit is recorded as the empty pattern by the
CMU builder but skipped entirely by the inline builder. -/
theorem dictionary_builders_agree (dict : List Char → List (List Char))
    (line w t : List Char)
    (hcomment : startsWithSemis line = false)
    (hsplit : splitTwoSpaces (pyStrip line) = [w, t]) :
    (1 ≤ (stressDigits t).length →
        cmuLineStep dict line = inlineLineStep dict line ∧
        stressDigits t ∈ cmuLineStep dict line (normWord w)) ∧
    ((stressDigits t).length = 0 →
        cmuLineStep dict line = dictAdd dict (normWord w) [] ∧
        [] ∈ cmuLineStep dict line (normWord w) ∧
        inlineLineStep dict line = dict) := by
  have hcmu : cmuLineStep dict line = dictAdd dict (normWord w) (stressDigits t) := by
    unfold cmuLineStep
    rw [if_neg (by simp [hcomment]), hsplit]
  have hinl : inlineLineStep dict line =
      if 1 ≤ (stressDigits t).length then dictAdd dict (normWord w) (stressDigits t)
      else dict := by
    unfold inlineLineStep
    rw [if_neg (by simp [hcomment]), hsplit]
  constructor
  · intro hlen
    refine ⟨?_, ?_⟩
    · rw [hcmu, hinl, if_pos hlen]
    · rw [hcmu]
      exact dictAdd_mem dict (normWord w) (stressDigits t)
  · intro hlen
    have hempty : stressDigits t = [] := List.length_eq_zero.mp hlen
    refine ⟨?_, ?_, ?_⟩
    · rw [hcmu, hempty]
    · rw [hcmu, hempty]
      exact dictAdd_mem dict (normWord w) []
    · rw [hinl, if_neg (by omega)]

/-- Claim C10, witness at the dictionary line
`CAMERA  K AE1 M ER0 AH0` starting from the empty dictionary. -/
theorem dictionary_builders_agree_witness :
    cmuLineStep (fun _ => []) ("CAMERA  K AE1 M ER0 AH0".data) =
      inlineLineStep (fun _ => []) ("CAMERA  K AE1 M ER0 AH0".data) ∧
    stressDigits ("K AE1 M ER0 AH0".data) ∈
      cmuLineStep (fun _ => []) ("CAMERA  K AE1 M ER0 AH0".data)
        (normWord ("CAMERA".data)) :=
  (dictionary_builders_agree (fun _ => []) ("CAMERA  K AE1 M ER0 AH0".data)
    ("CAMERA".data) ("K AE1 M ER0 AH0".data) (by decide) (by decide)).1 (by decide)

lemma insSorted_length (x : ℚ) (l : List ℚ) : (insSorted x l).length = l.length + 1 := by
  induction l with
  | nil => rfl
  | cons y ys ih =>
    unfold insSorted
    by_cases h : x ≤ y
    · rw [if_pos h]; rfl
    · rw [if_neg h]; simp [ih]

lemma sortQ_length (l : List ℚ) : (sortQ l).length = l.length := by
  induction l with
  | nil => rfl
  | cons x xs ih =>
    show (insSorted x (sortQ xs)).length = xs.length + 1
    rw [insSorted_length, ih]

/-- Claim C7, counterexample: building the scale from a single value fails
(`statistics.quantiles` requires at least two data points), contradicting
the claimed success for every list with at least one value. -/
theorem scale_single_value_counterexample : buildScale [(1 : ℚ)] = none := by
  decide

/-- Claim C7 (amended): building a speaker's percentile scale succeeds for
every list of at least two values, and the scale then has exactly 101
boundaries: 99 exclusive centile cut points plus the global minimum in
front and the global maximum at the end. -/
theorem scale_has_101_boundaries (V : List ℚ) (h : 2 ≤ V.length) :
    (buildScale V).map List.length = some 101 := by
  unfold buildScale quantilesEx
  rw [if_neg (by rw [sortQ_length]; omega)]
  simp

/-- Claim C7, witness for the amended theorem at the two-value list
[0, 1]. -/
theorem scale_has_101_boundaries_witness :
    2 ≤ ([(0 : ℚ), 1] : List ℚ).length ∧
    (buildScale [(0 : ℚ), 1]).map List.length = some 101 :=
  ⟨by norm_num, scale_has_101_boundaries [(0 : ℚ), 1] (by norm_num)⟩

lemma getDecileNbAux_cons (val b : ℚ) (d : ℕ) (rest : List ℚ) :
    getDecileNbAux val d (b :: rest) =
      if val < b then some ((d : ℤ) - 1)
      else if d = 100 ∧ val = b then some 99
      else getDecileNbAux val (d + 1) rest := rfl

lemma getDecileNbAux_last (val : ℚ) :
    ∀ (l : List ℚ) (d : ℕ), d + l.length = 101 →
      (∀ b ∈ l.dropLast, b < val) → l.getLast? = some val →
      getDecileNbAux val d l = some 99 := by
  intro l
  induction l with
  | nil => intro d _ _ hlast; simp at hlast
  | cons b rest ih =>
    intro d hlen hdrop hlast
    cases rest with
    | nil =>
      have hd : d = 100 := by simp at hlen; omega
      have hb : b = val := by
        simp only [List.getLast?_singleton, Option.some.injEq] at hlast
        exact hlast
      subst hd hb
      unfold getDecileNbAux
      rw [if_neg (lt_irrefl b), if_pos ⟨rfl, rfl⟩]
    | cons b2 rest2 =>
      have hb : b < val := hdrop b (by simp)
      have hd : d ≠ 100 := by
        simp only [List.length_cons] at hlen; omega
      unfold getDecileNbAux
      rw [if_neg (lt_asymm hb), if_neg (fun hc => hd hc.1)]
      apply ih (d + 1)
      · simp only [List.length_cons] at hlen ⊢; omega
      · intro x hx
        exact hdrop x (by simp [List.dropLast] at hx ⊢; tauto)
      · have h' := hlast
        rw [List.getLast?_cons_cons] at h'
        exact h'

lemma getDecileNbAux_count (v : ℚ) :
    ∀ (l : List ℚ) (d : ℕ) (r : ℤ), List.Pairwise (· ≤ ·) l → v ∉ l →
      getDecileNbAux v d l = some r →
      r = (d : ℤ) + ((l.filter (fun b => decide (b < v))).length : ℤ) - 1 := by
  intro l
  induction l with
  | nil => intro d r _ _ h; simp [getDecileNbAux] at h
  | cons b rest ih =>
    intro d r hpw hnm haux
    have hvb : v ≠ b := fun h => hnm (by simp [h])
    by_cases hlt : v < b
    · unfold getDecileNbAux at haux
      rw [if_pos hlt] at haux
      have hr : (d : ℤ) - 1 = r := by injection haux
      have hrest : rest.filter (fun b => decide (b < v)) = [] := by
        rw [List.filter_eq_nil_iff]
        intro x hx
        have hbx : b ≤ x := (List.pairwise_cons.mp hpw).1 x hx
        simp only [decide_eq_true_eq]
        exact not_lt_of_lt (lt_of_lt_of_le hlt hbx)
      rw [List.filter_cons_of_neg (by simp [lt_asymm hlt]), hrest]
      simp only [List.length_nil, Nat.cast_zero]
      omega
    · have hblt : b < v := lt_of_le_of_ne (not_lt.mp hlt) (fun h => hvb h.symm)
      unfold getDecileNbAux at haux
      rw [if_neg hlt, if_neg (fun hc => hvb hc.2)] at haux
      have := ih (d + 1) r (List.pairwise_cons.mp hpw).2
        (fun h => hnm (by simp [h])) haux
      rw [List.filter_cons_of_pos (by simp [hblt])]
      simp only [List.length_cons] at this ⊢
      push_cast at this ⊢
      omega

/-- Claim C3 (amended): for every successfully built percentile scale
whose 101 boundaries are strictly increasing, ranking the minimum of V
yields 0 and ranking the maximum of V yields 99; and on (weakly) sorted
boundaries the rank of a value that is not itself a boundary, when
defined, equals the count of boundaries strictly less than the value,
minus one.  (In general the exclusive centiles of a small sample
extrapolate beyond the data range, so the boundaries of a successful
build need not be non-decreasing.) -/
theorem scale_rank_boundaries :
    (∀ V s : List ℚ, buildScale V = some s → List.Chain' (· < ·) s →
        getDecileNb (listMin V) s = some 0 ∧ getDecileNb (listMax V) s = some 99) ∧
    (∀ (v : ℚ) (s : List ℚ) (r : ℤ), List.Chain' (· ≤ ·) s → v ∉ s →
        getDecileNb v s = some r →
        r = ((s.filter (fun b => decide (b < v))).length : ℤ) - 1) := by
  constructor
  · intro V s hbuild hchain
    unfold buildScale at hbuild
    cases hq : quantilesEx 100 V with
    | none => rw [hq] at hbuild; exact absurd hbuild (by simp)
    | some qs =>
      rw [hq] at hbuild
      have hs : s = listMin V :: qs ++ [listMax V] := by
        injection hbuild with h'; exact h'.symm
      have hqlen : qs.length = 99 := by
        unfold quantilesEx at hq
        by_cases hld : (sortQ V).length < 2
        · rw [if_pos hld] at hq; exact absurd hq (by simp)
        · rw [if_neg hld] at hq
          have h' : (List.range 99).map (quantPoint 100 (sortQ V)) = qs := by
            injection hq
          rw [← h']; simp
      subst hs
      constructor
      · cases qs with
        | nil => simp at hqlen
        | cons a as =>
          simp only [List.cons_append] at hchain ⊢
          have hminlt : listMin V < a := (List.chain'_cons.mp hchain).1
          show getDecileNbAux (listMin V) 0
            (listMin V :: a :: (as ++ [listMax V])) = some 0
          rw [getDecileNbAux_cons, if_neg (lt_irrefl _), if_neg (by norm_num),
            getDecileNbAux_cons, if_pos hminlt]
          norm_num
      · unfold getDecileNb
        apply getDecileNbAux_last
        · simp [hqlen]
        · have hpw : List.Pairwise (· < ·) (listMin V :: qs ++ [listMax V]) :=
            List.chain'_iff_pairwise.mp hchain
          rw [show listMin V :: qs ++ [listMax V] =
            (listMin V :: qs) ++ [listMax V] from rfl] at hpw
          have hall := (List.pairwise_append.mp hpw).2.2
          intro b hb
          have hbmem : b ∈ listMin V :: qs := by
            rw [show listMin V :: qs ++ [listMax V] =
              (listMin V :: qs) ++ [listMax V] from rfl,
              List.dropLast_concat] at hb
            exact hb
          exact hall b hbmem (listMax V) (by simp)
        · rw [show listMin V :: qs ++ [listMax V] =
            (listMin V :: qs) ++ [listMax V] from rfl]
          exact List.getLast?_concat _
  · intro v s r hchain hnm haux
    have hpw : List.Pairwise (· ≤ ·) s := List.chain'_iff_pairwise.mp hchain
    have := getDecileNbAux_count v s 0 r hpw hnm haux
    omega

/-- Claim C3, counterexample: the scale built from V = [0, 1] succeeds,
its boundary 0 is the minimum 0, but its boundary 1 is the extrapolated
first centile -0.97, so the 101 boundaries are not non-decreasing (and
consequently ranking the minimum does not yield 0 either). -/
theorem scale_boundaries_counterexample :
    ((buildScale [(0 : ℚ), 1]).getD []).head? = some 0 ∧
    ((buildScale [(0 : ℚ), 1]).getD []).tail.head? = some (-(97 : ℚ)/100) ∧
    ¬ List.Chain' (· ≤ ·) ((buildScale [(0 : ℚ), 1]).getD []) := by
  have hsort : sortQ [(0 : ℚ), 1] = [0, 1] := by
    norm_num [sortQ, insSorted]
  have hq0 : quantPoint 100 [(0 : ℚ), 1] 0 = -(97 : ℚ)/100 := by
    norm_num [quantPoint]
  have hb : buildScale [(0 : ℚ), 1] =
      some ((0 : ℚ) :: ((-(97 : ℚ)/100) ::
        (List.range 98).map (fun k => quantPoint 100 [(0 : ℚ), 1] (k + 1)) ++ [1])) := by
    unfold buildScale quantilesEx
    rw [hsort]
    rw [if_neg (by norm_num)]
    have hmin : listMin [(0 : ℚ), 1] = 0 := by norm_num [listMin]
    have hmax : listMax [(0 : ℚ), 1] = 1 := by norm_num [listMax]
    have hrange : (List.range 99).map (quantPoint 100 [(0 : ℚ), 1]) =
        (-(97 : ℚ)/100) ::
          (List.range 98).map (fun k => quantPoint 100 [(0 : ℚ), 1] (k + 1)) := by
      rw [show (99 : ℕ) = 98 + 1 from rfl, List.range_succ_eq_map]
      simp only [List.map_cons, List.map_map]
      rw [hq0]
      rfl
    rw [hmin, hmax, hrange]
    rfl
  refine ⟨?_, ?_, ?_⟩
  · rw [hb]; rfl
  · rw [hb]; rfl
  · intro hc
    rw [hb] at hc
    simp only [Option.getD_some, List.cons_append] at hc
    have h01 : (0 : ℚ) ≤ -(97 : ℚ)/100 := (List.chain'_cons.mp hc).1
    norm_num at h01

lemma sortQ_of_chain : ∀ l : List ℚ, List.Chain' (· ≤ ·) l → sortQ l = l := by
  intro l
  induction l with
  | nil => intro _; rfl
  | cons x xs ih =>
    intro h
    show insSorted x (sortQ xs) = x :: xs
    rw [ih (List.chain'_cons'.mp h).2]
    cases xs with
    | nil => rfl
    | cons y ys =>
      have hxy : x ≤ y := (List.chain'_cons.mp h).1
      unfold insSorted
      rw [if_pos hxy]

lemma chain_V100 : List.Chain' (· ≤ ·) V100 := by
  have hp : List.Pairwise (· ≤ ·) V100 := by
    rw [V100, List.pairwise_map]
    exact (List.pairwise_lt_range 100).imp
      (fun h => by exact_mod_cast le_of_lt h)
  exact hp.chain'

lemma V100_length : V100.length = 100 := by simp [V100]

lemma V100_getD (j : ℕ) (h : j < 100) : V100.getD j 0 = (j : ℚ) := by
  rw [V100, List.getD_eq_getElem?_getD, List.getElem?_map, List.getElem?_range h]
  rfl

lemma foldl_min_of_le : ∀ (l : List ℚ) (a : ℚ), (∀ x ∈ l, a ≤ x) → l.foldl min a = a := by
  intro l
  induction l with
  | nil => intro a _; rfl
  | cons x xs ih =>
    intro a h
    simp only [List.foldl_cons]
    rw [min_eq_left (h x (by simp))]
    exact ih a (fun y hy => h y (by simp [hy]))

lemma foldl_max_eq (b : ℚ) :
    ∀ (l : List ℚ) (a : ℚ), a ≤ b → (b ∈ l ∨ b = a) → (∀ x ∈ l, x ≤ b) →
      l.foldl max a = b := by
  intro l
  induction l with
  | nil =>
    intro a _ hm _
    rcases hm with h | h
    · simp at h
    · exact h.symm
  | cons x xs ih =>
    intro a hab hm hub
    simp only [List.foldl_cons]
    have hxb : x ≤ b := hub x (by simp)
    rcases hm with hmem | hba
    · rcases List.mem_cons.mp hmem with hbx | hbxs
      · exact ih (max a x) (max_le hab hxb)
          (Or.inr (by rw [max_eq_right (hbx ▸ hab)]; exact hbx))
          (fun y hy => hub y (by simp [hy]))
      · exact ih (max a x) (max_le hab hxb) (Or.inl hbxs)
          (fun y hy => hub y (by simp [hy]))
    · exact ih (max a x) (max_le (le_of_eq hba.symm) hxb)
        (Or.inr (by rw [max_eq_left (hba ▸ hxb)]; exact hba))
        (fun y hy => hub y (by simp [hy]))

lemma V100_decomp : V100 = (0 : ℚ) :: (List.range 99).map (fun k => ((k + 1 : ℕ) : ℚ)) := by
  rw [V100, show (100 : ℕ) = 99 + 1 from rfl, List.range_succ_eq_map]
  simp only [List.map_cons, List.map_map, Nat.cast_zero]
  rfl

lemma listMin_V100 : listMin V100 = 0 := by
  rw [V100_decomp]
  show ((List.range 99).map fun k => ((k + 1 : ℕ) : ℚ)).foldl min 0 = 0
  apply foldl_min_of_le
  intro x hx
  obtain ⟨k, _, hk⟩ := List.mem_map.mp hx
  rw [← hk]
  positivity

lemma listMax_V100 : listMax V100 = 99 := by
  rw [V100_decomp]
  show ((List.range 99).map fun k => ((k + 1 : ℕ) : ℚ)).foldl max 0 = 99
  apply foldl_max_eq
  · norm_num
  · left
    exact List.mem_map.mpr ⟨98, List.mem_range.mpr (by norm_num), by norm_num⟩
  · intro x hx
    obtain ⟨k, hkmem, hk⟩ := List.mem_map.mp hx
    rw [← hk]
    have hk99 : k + 1 ≤ 99 := List.mem_range.mp hkmem
    exact_mod_cast hk99

lemma quantPoint_V100 (k : ℕ) (hk : k < 99) :
    quantPoint 100 V100 k = scaleFun (k + 1) := by
  have hj0 : (k + 1) * (V100.length + 1) / 100 = k + 1 := by
    rw [V100_length]; omega
  simp only [quantPoint, hj0]
  rw [if_neg (by omega), if_neg (by rw [V100_length]; omega)]
  have hd1 : V100.getD (k + 1 - 1) 0 = (k : ℚ) := by
    rw [show k + 1 - 1 = k from rfl, V100_getD k (by omega)]
  have hd2 : V100.getD (k + 1) 0 = ((k + 1 : ℕ) : ℚ) := by
    rw [V100_getD (k + 1) (by omega)]
  rw [hd1, hd2, V100_length]
  rw [scaleFun, if_neg (by omega), if_neg (by omega)]
  push_cast
  ring_nf

lemma scale100_decomp :
    scale100 = (0 : ℚ) :: ((List.range 99).map (fun k => scaleFun (k + 1)) ++ [(99 : ℚ)]) := by
  rw [scale100, show (101 : ℕ) = 100 + 1 from rfl, List.range_succ_eq_map,
    show (100 : ℕ) = 99 + 1 from rfl, List.range_succ]
  simp only [List.map_cons, List.map_map, List.map_append, Function.comp,
    Nat.succ_eq_add_one, List.map_nil]
  norm_num [scaleFun]

lemma buildScale_V100 : buildScale V100 = some scale100 := by
  have h1 : quantilesEx 100 V100 =
      some ((List.range 99).map (quantPoint 100 V100)) := by
    unfold quantilesEx
    rw [sortQ_of_chain V100 chain_V100, if_neg (by rw [V100_length]; norm_num)]
  unfold buildScale
  rw [h1]
  show some (listMin V100 :: (List.range 99).map (quantPoint 100 V100) ++ [listMax V100]) =
    some scale100
  have hmap : (List.range 99).map (quantPoint 100 V100) =
      (List.range 99).map (fun k => scaleFun (k + 1)) :=
    List.map_congr_left (fun k hk => quantPoint_V100 k (List.mem_range.mp hk))
  rw [listMin_V100, listMax_V100, hmap, scale100_decomp]
  rfl

lemma chain_scale100 : List.Chain' (· < ·) scale100 := by
  rw [scale100, List.chain'_map, show (101 : ℕ) = Nat.succ 100 from rfl,
    List.chain'_range_succ]
  intro m hm
  by_cases h0 : m = 0
  · subst h0; norm_num [scaleFun]
  · by_cases h99 : m = 99
    · subst h99; norm_num [scaleFun]
    · have h3 : m ≠ 100 := by omega
      have h4 : m + 1 ≠ 0 := by omega
      have h5 : m + 1 ≠ 100 := by omega
      simp only [scaleFun, if_neg h0, if_neg h3, if_neg h4, if_neg h5]
      rw [div_lt_div_iff_of_pos_right (by norm_num : (0:ℚ) < 100)]
      push_cast
      linarith

lemma scale100_nonneg : ∀ x ∈ scale100, 0 ≤ x := by
  intro x hx
  rw [scale100] at hx
  obtain ⟨k, _, hkx⟩ := List.mem_map.mp hx
  rw [← hkx]
  unfold scaleFun
  by_cases h0 : k = 0
  · rw [if_pos h0]
  · rw [if_neg h0]
    by_cases h100 : k = 100
    · rw [if_pos h100]; norm_num
    · rw [if_neg h100]
      have h1 : (1 : ℚ) ≤ (k : ℚ) := by
        exact_mod_cast Nat.one_le_iff_ne_zero.mpr h0
      have : (0 : ℚ) ≤ 101 * (k : ℚ) - 100 := by linarith
      positivity

lemma neg_one_not_mem_scale100 : (-1 : ℚ) ∉ scale100 := by
  intro h
  have := scale100_nonneg _ h
  norm_num at this

lemma getDecileNb_neg_one : getDecileNb (-1 : ℚ) scale100 = some (-1) := by
  rw [getDecileNb, scale100_decomp, getDecileNbAux_cons,
    if_pos (by norm_num : (-1 : ℚ) < 0)]
  norm_num

/-- Claim C3, witness for the amended theorem at the 100-value speaker
list V100 = [0, 1, ..., 99], whose built scale is strictly increasing:
ranking its minimum yields 0, ranking its maximum yields 99, and the rank
of the non-boundary value -1 equals the count of boundaries strictly below
it, minus one. -/
theorem scale_rank_boundaries_witness :
    getDecileNb (listMin V100) scale100 = some 0 ∧
    getDecileNb (listMax V100) scale100 = some 99 ∧
    (-1 : ℤ) = ((scale100.filter (fun b => decide (b < (-1 : ℚ)))).length : ℤ) - 1 :=
  ⟨(scale_rank_boundaries.1 V100 scale100 buildScale_V100 chain_scale100).1,
   (scale_rank_boundaries.1 V100 scale100 buildScale_V100 chain_scale100).2,
   scale_rank_boundaries.2 (-1 : ℚ) scale100 (-1 : ℤ)
     (chain_scale100.imp (fun _ _ h => le_of_lt h))
     neg_one_not_mem_scale100 getDecileNb_neg_one⟩

end EnAnalysis
